import Mathlib

/-!
Verification of the Perplexity analyzer core (`utils/analysisUtils.ts`,
`utils/perplexityUtils.ts`) against its natural-language specification.

The TypeScript source is shallowly embedded: JS numbers are modelled as exact
rationals (`ℚ`), the possibly-`NaN` results of `_.mean` as `Option ℚ` (`none`
for `NaN`), a record's `id : string | number | null | undefined` as `JsId`,
and the one throwing expression (`row.id.toString()` on a missing id) via
`Except Unit`.  The randomness of `Math.random()` is made explicit as a draw
`u : ℚ` supplied to each local-scoring call, and the outcome of the remote
`fetch` round-trip is an explicit `RemoteOutcome` value.
-/

namespace PerplexityAnalyzer

/-- A record's `id` field as it arrives from CSV parsing with
`dynamicTyping`: a string, a number, or missing (`null`/`undefined`). -/
inductive JsId where
  | str (s : String)
  | num (n : Int)
  | missing
deriving DecidableEq, Repr

/-- One parsed CSV row as used by `analyzeFiles`: an `id` and an optional
`text` field (`none` models a missing field). -/
structure Row where
  id : JsId
  text : Option String
deriving DecidableEq, Repr

/-- `FileData` from `types/types.ts`, restricted to the two fields that
`analyzeFiles` reads: `name` and `data`. -/
structure FileData where
  name : String
  data : List Row
deriving DecidableEq, Repr

/-! ### JS / lodash primitives -/

/-- JS `x.toString()` on a stringified id; `missing` has no `toString` and
throws a `TypeError`, modelled as `Except.error`. -/
def idToString : JsId → Except Unit String
  | .str s => Except.ok s
  | .num n => Except.ok (toString n)
  | .missing => Except.error ()

/-- Total variant of `idToString`, meaningful only on non-missing ids. -/
def idStr : JsId → String
  | .str s => s
  | .num n => toString n
  | .missing => ""

/-- `row.text?.toString() || ''`: a missing text field becomes the empty
string. -/
def textOf (r : Row) : String := r.text.getD ""

/-- JS `v || d` on an optional number: `undefined` and `0` are falsy. -/
def jsOr (x : Option ℚ) (d : ℚ) : ℚ :=
  match x with
  | none => d
  | some v => if v = 0 then d else v

/-- Lodash `_.min`: `undefined` on an empty array, else the least element
(left fold with `<` comparisons). -/
def listMin? : List ℚ → Option ℚ
  | [] => none
  | a :: t => some (t.foldl min a)

/-- Lodash `_.max`: `undefined` on an empty array, else the greatest
element. -/
def listMax? : List ℚ → Option ℚ
  | [] => none
  | a :: t => some (t.foldl max a)

/-- Lodash `_.mean`: `NaN` (modelled as `none`) on an empty array, else the
sum divided by the length. -/
def jsMean (l : List ℚ) : Option ℚ :=
  match l with
  | [] => none
  | _ => some (l.sum / (l.length : ℚ))

/-- `parseFloat(x.toFixed(2))`: rounding to two decimal places (for the
nonnegative values produced here, round half up). -/
def round2 (q : ℚ) : ℚ := ((⌊q * 100 + 1/2⌋ : ℤ) : ℚ) / 100

/-- Split a character list at every occurrence of `c`, keeping empty
pieces, as JS `String.prototype.split` with a one-character separator
does.  The result is always non-empty; splitting the empty list yields
`[[]]`, matching `"".split(' ') == [""]`. -/
def splitOnChar (c : Char) : List Char → List (List Char)
  | [] => [[]]
  | a :: t =>
    if a = c then [] :: splitOnChar c t
    else
      match splitOnChar c t with
      | [] => [[a]]
      | h :: r => (a :: h) :: r

/-- JS `text.split(' ')`: split on every single space character, keeping
empty pieces produced by consecutive spaces. -/
def jsSplitSpace (s : String) : List String :=
  (splitOnChar ' ' s.toList).map String.mk

/-- Lodash `_.uniq` / JS `new Set`, keeping the first occurrence of each
value, via an accumulator of already-seen values. -/
def uniqAux [DecidableEq α] : List α → List α → List α
  | [], _ => []
  | a :: t, seen =>
    if a ∈ seen then uniqAux t seen else a :: uniqAux t (a :: seen)

/-- Deduplicate a list keeping first occurrences (lodash `_.uniq`). -/
def uniqFirst [DecidableEq α] (l : List α) : List α := uniqAux l []

/-- Lodash `_.range(start, stop, step)`: `max(⌈(stop − start)/(step || 1)⌉, 0)`
values `start + k·step`. -/
def lodashRange (start stop step : ℚ) : List ℚ :=
  let s := if step = 0 then 1 else step
  let len : ℕ := (⌈(stop - start) / s⌉).toNat
  (List.range len).map (fun k => start + (k : ℚ) * step)

/-- Lodash `_.intersection(...arrays)`: the values of the first array that
occur in every array, deduplicated, in first-array order; `[]` when called
with no arrays. -/
def lodashIntersection [DecidableEq α] : List (List α) → List α
  | [] => []
  | a :: rest => uniqFirst (a.filter (fun v => rest.all (fun arr => decide (v ∈ arr))))

/-- Lodash `_.union(...arrays)`: deduplicated concatenation. -/
def lodashUnion [DecidableEq α] (arrays : List (List α)) : List α :=
  uniqFirst arrays.flatten

/-- JS `text.toLowerCase()`: lower-case every character. -/
def jsToLower (s : String) : String := String.mk (s.toList.map Char.toLower)

/-! ### Scorer (`utils/perplexityUtils.ts`) -/

/-- The local ("dummy") perplexity heuristic of `calculatePerplexity` for
one call, with the `Math.random()` draw `u` made explicit:
`wordCount = text.split(' ').length`,
`uniqueWords = new Set(text.toLowerCase().split(' ')).size`,
`entropy = uniqueWords / wordCount`,
`score = 5 + 25 * (1 - entropy) * u`. -/
def localScore (text : String) (u : ℚ) : ℚ :=
  let wordCount : ℕ := (jsSplitSpace text).length
  let uniqueWords : ℕ := (uniqFirst (jsSplitSpace (jsToLower text))).length
  let entropy : ℚ := (uniqueWords : ℚ) / (wordCount : ℚ)
  5 + 25 * (1 - entropy) * u

/-- The parsed body of a remote response: either `response.json()` throws
(`notJson`), or it yields an object whose `perplexity` field is a number
(`json (some q)`) or absent (`json none`, read back as `undefined`). -/
inductive RemoteBody where
  | notJson
  | json (perplexity : Option ℚ)
deriving DecidableEq, Repr

/-- One remote round-trip outcome: the `fetch` call throws (network error),
or a response arrives with `response.ok` and a body. -/
inductive RemoteOutcome where
  | fetchError
  | response (ok : Bool) (body : RemoteBody)
deriving DecidableEq, Repr

/-- Result of one `calculatePerplexity` call: the returned value (`none`
models returning JS `undefined`) and whether the `onApiError` hook was
invoked. -/
structure CalcResult where
  value : Option ℚ
  hookCalled : Bool
deriving DecidableEq, Repr

/-- `calculatePerplexity(text, useRemoteApi, onApiError)` from
`utils/perplexityUtils.ts`, with the remote outcome and the random draw of
the (possibly reached) local branch made explicit.  The `catch` block logs,
invokes the hook and recurses with `useRemoteApi = false`; a `response.ok`
response whose parsed body has no `perplexity` field returns that missing
field (`undefined`) without entering the `catch`. -/
def calculatePerplexity (text : String) (useRemoteApi : Bool)
    (outcome : RemoteOutcome) (u : ℚ) : CalcResult :=
  if !useRemoteApi then
    { value := some (localScore text u), hookCalled := false }
  else
    match outcome with
    | .fetchError => { value := some (localScore text u), hookCalled := true }
    | .response ok body =>
      if !ok then { value := some (localScore text u), hookCalled := true }
      else
        match body with
        | .notJson => { value := some (localScore text u), hookCalled := true }
        | .json p => { value := p, hookCalled := false }

/-! ### Statistics engine (`analyzeFiles`, file statistics block) -/

/-- `FileStats` from `types/types.ts`; `avgWordCount` is `Option ℚ` because
`parseFloat(_.mean([]).toFixed(2))` is `NaN`, modelled as `none`. -/
structure FileStats where
  name : String
  rowCount : ℕ
  avgWordCount : Option ℚ
  maxWordCount : ℚ
  minWordCount : ℚ
deriving DecidableEq, Repr

/-- `row.text ? row.text.toString().split(' ').length : 0`: the empty
string and a missing field are falsy. -/
def wordCountOfRow (r : Row) : ℕ :=
  match r.text with
  | none => 0
  | some t => if t = "" then 0 else (jsSplitSpace t).length

/-- The per-file statistics block of `analyzeFiles`. -/
def fileStatsOf (file : FileData) : FileStats :=
  let textLengths : List ℚ := file.data.map (fun row => (wordCountOfRow row : ℚ))
  { name := file.name
    rowCount := file.data.length
    avgWordCount := (jsMean textLengths).map round2
    maxWordCount := jsOr (listMax? textLengths) 0
    minWordCount := jsOr (listMin? textLengths) 0 }

/-! ### Cross-file comparator (`analyzeFiles`, comparison block) -/

/-- `_.isEqual(_.countBy(text1.split(' ')), _.countBy(text2.split(' ')))`:
`_.countBy` builds the token → occurrence-count map (keys in first-occurrence
order), and `_.isEqual` compares the two maps as unordered key/value sets. -/
def jsCountBy (l : List String) : List (String × ℕ) :=
  (uniqFirst l).map (fun t => (t, l.count t))

/-- The comparator's `wordsMatch` flag for two texts. -/
def wordsMatch (t1 t2 : String) : Bool :=
  decide ((jsCountBy (jsSplitSpace t1)).toFinset = (jsCountBy (jsSplitSpace t2)).toFinset)

/-- The comparator's `textsDifferent` flag: exact string inequality. -/
def textsDifferent (t1 t2 : String) : Bool := t1 != t2

/-- One row of the comparison table. -/
structure ComparisonRow where
  id : JsId
  file1Text : String
  file2Text : String
  wordsMatch : Bool
  textsDifferent : Bool
deriving DecidableEq, Repr

/-- `FileComparison` from `types/types.ts`. -/
structure FileComparison where
  file1Name : String
  file2Name : String
  data : List ComparisonRow
  differentTexts : ℕ
  sameWords : ℕ
deriving DecidableEq, Repr

/-- The comparison block of `analyzeFiles`, run on the first two selected
files: intersect the raw id lists, look up the first matching row on each
side, and compare the two texts. -/
def compareFiles (file1 file2 : FileData) : FileComparison :=
  let file1Ids := file1.data.map (·.id)
  let file2Ids := file2.data.map (·.id)
  let commonIds := lodashIntersection [file1Ids, file2Ids]
  let comparisonData := commonIds.filterMap (fun id =>
    match file1.data.find? (fun row => decide (row.id = id)),
          file2.data.find? (fun row => decide (row.id = id)) with
    | some file1Row, some file2Row =>
      let text1 := textOf file1Row
      let text2 := textOf file2Row
      some { id := id
             file1Text := text1
             file2Text := text2
             wordsMatch := wordsMatch text1 text2
             textsDifferent := textsDifferent text1 text2 }
    | _, _ => none)
  { file1Name := file1.name
    file2Name := file2.name
    data := comparisonData
    differentTexts := (comparisonData.filter (·.textsDifferent)).length
    sameWords := (comparisonData.filter (·.wordsMatch)).length }

/-! ### Distribution builder (`analyzeFiles`, histogram block) -/

/-- `Math.floor(_.min(perplexityValues) || 0)`. -/
def distMinI (vals : List ℚ) : ℤ := ⌊jsOr (listMin? vals) 0⌋

/-- `Math.ceil(_.max(perplexityValues) || 30)`. -/
def distMaxI (vals : List ℚ) : ℤ := ⌈jsOr (listMax? vals) 30⌉

/-- `bucketSize = (max - min) / 10`. -/
def bucketSizeOf (vals : List ℚ) : ℚ :=
  ((distMaxI vals - distMinI vals : ℤ) : ℚ) / 10

/-- The histogram block of `analyzeFiles`: bucket boundaries
`_.range(min, max + bucketSize, bucketSize)`, each carrying the count of
scores `p` with `p >= bucket && p < bucket + bucketSize`. -/
def buildDistribution (vals : List ℚ) : List (ℚ × ℕ) :=
  let bucketSize := bucketSizeOf vals
  let buckets := lodashRange ((distMinI vals : ℚ)) ((distMaxI vals : ℚ) + bucketSize) bucketSize
  buckets.map (fun bucket =>
    (bucket, (vals.filter (fun p => decide (bucket ≤ p) && decide (p < bucket + bucketSize))).length))

/-! ### Scoring and best-of selection (`analyzeFiles`) -/

/-- One scored record (`PerplexityScore.scores` entry). -/
structure Score where
  id : JsId
  text : String
  perplexity : ℚ
deriving DecidableEq, Repr

/-- `PerplexityScore` from `types/types.ts`; `avgPerplexity` is `Option ℚ`
since `_.mean([])` is `NaN`. -/
structure PerplexityScore where
  name : String
  avgPerplexity : Option ℚ
  scores : List Score
  distribution : List (ℚ × ℕ)
deriving DecidableEq, Repr

/-- The per-file scoring block of `analyzeFiles`, with the awaited
`calculatePerplexity` results supplied as a row-indexed oracle `score`. -/
def scoreFile (file : FileData) (score : ℕ → ℚ) : PerplexityScore :=
  let scores : List Score := file.data.enum.map (fun ir =>
    { id := ir.2.id, text := textOf ir.2, perplexity := score ir.1 })
  let perplexityValues := scores.map (·.perplexity)
  { name := file.name
    avgPerplexity := jsMean perplexityValues
    scores := scores
    distribution := buildDistribution perplexityValues }

/-- `BestText` from `types/types.ts`: a scored record tagged with its
source file name. -/
structure BestText where
  id : JsId
  text : String
  perplexity : ℚ
  source : String
deriving DecidableEq, Repr

/-- `_.flatten(perplexityScores.map(file => file.scores.map(score => ({...score, source: file.name}))))`. -/
def allScoresOf (reports : List PerplexityScore) : List BestText :=
  (reports.map (fun file => file.scores.map (fun s =>
    { id := s.id, text := s.text, perplexity := s.perplexity, source := file.name }))).flatten

/-- Lodash `_.minBy(arr, 'perplexity')`: `undefined` on an empty array,
else the first element whose key is strictly below every later
candidate (replacement only on strict decrease). -/
def minByPerplexity : List BestText → Option BestText
  | [] => none
  | a :: t => some (t.foldl (fun best x => if x.perplexity < best.perplexity then x else best) a)

/-- The best-of block of `analyzeFiles`: for each distinct id (first-seen
order), the first minimum-perplexity entry among all scores with that id. -/
def bestTextsOf (reports : List PerplexityScore) : List BestText :=
  let allScores := allScoresOf reports
  let uniqueIds := uniqFirst (allScores.map (·.id))
  uniqueIds.filterMap (fun id =>
    minByPerplexity (allScores.filter (fun score => decide (score.id = id))))

/-! ### The orchestration function -/

/-- `AnalysisResult` from `types/types.ts`. -/
structure AnalysisResult where
  fileStats : List FileStats
  comparison : Option FileComparison
  commonIds : ℕ
  totalUniqueIds : ℕ
  perplexityScores : List PerplexityScore
  bestTexts : List BestText
deriving DecidableEq, Repr

/-- Sequential map over a list in the `Except` monad: the embedding of a JS
`map` whose body may throw (here, `row.id.toString()`). -/
def mapExcept (f : α → Except Unit β) : List α → Except Unit (List β)
  | [] => Except.ok []
  | a :: t =>
    match f a with
    | Except.error e => Except.error e
    | Except.ok b =>
      match mapExcept f t with
      | Except.error e => Except.error e
      | Except.ok bs => Except.ok (b :: bs)

/-- `analyzeFiles` from `utils/analysisUtils.ts`.  The awaited
`calculatePerplexity` results are supplied as an oracle
`score : file index → row index → ℚ`; the only expression in the function
body that can throw is `row.id.toString()` in the common-id block, so the
result is an `Except` that is an error exactly when that block throws. -/
def analyzeFiles (selectedFiles : List FileData) (score : ℕ → ℕ → ℚ) :
    Except Unit AnalysisResult :=
  let fileStats := selectedFiles.map fileStatsOf
  let comparison : Option FileComparison :=
    match selectedFiles with
    | file1 :: file2 :: _ => some (compareFiles file1 file2)
    | _ => none
  let perplexityScores := selectedFiles.enum.map (fun ifile => scoreFile ifile.2 (score ifile.1))
  let bestTexts := bestTextsOf perplexityScores
  match mapExcept (fun file => mapExcept (fun row => idToString row.id) file.data) selectedFiles with
  | Except.error e => Except.error e
  | Except.ok allIds =>
    Except.ok
      { fileStats := fileStats
        comparison := comparison
        commonIds := (lodashIntersection allIds).length
        totalUniqueIds := (lodashUnion allIds).length
        perplexityScores := perplexityScores
        bestTexts := bestTexts }

/-! ### Spec-side definitions (used only to state divergences) -/

/-- Split a character list at every character satisfying `p`, keeping empty
pieces (generalisation of `splitOnChar` used only on the spec side). -/
def splitOnPred (p : Char → Bool) : List Char → List (List Char)
  | [] => [[]]
  | a :: t =>
    if p a then [] :: splitOnPred p t
    else
      match splitOnPred p t with
      | [] => [[a]]
      | h :: r => (a :: h) :: r

/-- Following the specification's words: the whitespace-split tokens of a
text, where any run of whitespace acts as a single separator and the empty
text has no tokens. -/
def specWhitespaceTokens (s : String) : List String :=
  ((splitOnPred (fun c => c.isWhitespace) s.toList).filter (fun piece => piece ≠ [])).map String.mk

/-- The remote-call failure outcomes that `calculatePerplexity`'s `catch`
block actually intercepts: a thrown `fetch` (network error), a non-`ok`
response (the code throws on it), or a body on which `response.json()`
throws.  A well-formed JSON body that merely lacks the `perplexity` field
is not intercepted. -/
def handledRemoteFailure : RemoteOutcome → Bool
  | .fetchError => true
  | .response ok body =>
    !ok || (match body with | .notJson => true | .json _ => false)

/-- The stringified id column of one file, as the common-id block of
`analyzeFiles` computes it when no id is missing. -/
def strIdsOf (file : FileData) : List String :=
  file.data.map (fun row => idStr row.id)

/-- A concrete one-record dataset whose record id is the number 1. -/
def c8FileA : FileData := { name := "A", data := [{ id := JsId.num 1, text := some "x" }] }

/-- A concrete one-record dataset whose record id is the string "1". -/
def c8FileB : FileData := { name := "B", data := [{ id := JsId.str "1", text := some "y" }] }

/-- Two concrete single-record per-file reports used to witness the best-of
selector's properties on an explicit input. -/
def c6Reports : List PerplexityScore :=
  [{ name := "A", avgPerplexity := none,
     scores := [{ id := JsId.num 1, text := "t1", perplexity := 10 }], distribution := [] },
   { name := "B", avgPerplexity := none,
     scores := [{ id := JsId.num 1, text := "t2", perplexity := 7 }], distribution := [] }]

/-! ## Helper lemmas -/

theorem mem_uniqAux [DecidableEq α] {a : α} :
    ∀ (l seen : List α), a ∈ uniqAux l seen ↔ a ∈ l ∧ a ∉ seen
  | [], seen => by simp [uniqAux]
  | b :: t, seen => by
    by_cases hb : b ∈ seen
    · rw [uniqAux, if_pos hb, mem_uniqAux t seen]
      constructor
      · rintro ⟨h1, h2⟩
        exact ⟨List.mem_cons_of_mem _ h1, h2⟩
      · rintro ⟨h1, h2⟩
        rcases List.mem_cons.mp h1 with rfl | h1
        · exact absurd hb h2
        · exact ⟨h1, h2⟩
    · rw [uniqAux, if_neg hb]
      constructor
      · intro h
        rcases List.mem_cons.mp h with rfl | h
        · exact ⟨List.mem_cons_self _ _, hb⟩
        · have h2 := (mem_uniqAux t (b :: seen)).mp h
          exact ⟨List.mem_cons_of_mem _ h2.1, fun hs => h2.2 (List.mem_cons_of_mem _ hs)⟩
      · rintro ⟨h1, h2⟩
        rcases List.mem_cons.mp h1 with rfl | h1
        · exact List.mem_cons_self _ _
        · by_cases hab : a = b
          · subst hab
            exact List.mem_cons_self _ _
          · refine List.mem_cons_of_mem _ ((mem_uniqAux t (b :: seen)).mpr ⟨h1, ?_⟩)
            intro hs
            exact (List.mem_cons.mp hs).elim hab h2

theorem mem_uniqFirst [DecidableEq α] {a : α} (l : List α) :
    a ∈ uniqFirst l ↔ a ∈ l := by
  simp [uniqFirst, mem_uniqAux]

theorem nodup_uniqAux [DecidableEq α] :
    ∀ (l seen : List α), (uniqAux l seen).Nodup
  | [], _ => by simp [uniqAux]
  | b :: t, seen => by
    by_cases hb : b ∈ seen
    · rw [uniqAux, if_pos hb]
      exact nodup_uniqAux t seen
    · rw [uniqAux, if_neg hb]
      refine List.Nodup.cons ?_ (nodup_uniqAux t (b :: seen))
      intro hmem
      exact ((mem_uniqAux t (b :: seen)).mp hmem).2 (List.mem_cons_self _ _)

theorem nodup_uniqFirst [DecidableEq α] (l : List α) : (uniqFirst l).Nodup :=
  nodup_uniqAux l []

theorem toFinset_uniqFirst [DecidableEq α] (l : List α) :
    (uniqFirst l).toFinset = l.toFinset := by
  ext a
  simp [mem_uniqFirst]

theorem length_uniqFirst [DecidableEq α] (l : List α) :
    (uniqFirst l).length = l.toFinset.card := by
  rw [← toFinset_uniqFirst]
  exact (List.toFinset_card_of_nodup (nodup_uniqFirst l)).symm

theorem splitOnChar_ne_nil (c : Char) : ∀ l : List Char, splitOnChar c l ≠ []
  | [] => by simp [splitOnChar]
  | a :: t => by
    rw [splitOnChar]
    by_cases h : a = c
    · simp [h]
    · simp only [if_neg h]
      cases hs : splitOnChar c t with
      | nil => simp
      | cons hd tl => simp

theorem length_splitOnChar (c : Char) :
    ∀ l : List Char, (splitOnChar c l).length = l.count c + 1
  | [] => by simp [splitOnChar]
  | a :: t => by
    rw [splitOnChar]
    by_cases h : a = c
    · rw [if_pos h, List.length_cons, length_splitOnChar c t]
      simp [List.count_cons, h]
    · rw [if_neg h]
      cases hs : splitOnChar c t with
      | nil => exact absurd hs (splitOnChar_ne_nil c t)
      | cons hd tl =>
        have hlen := length_splitOnChar c t
        rw [hs] at hlen
        simp only [List.length_cons] at hlen ⊢
        rw [List.count_cons]
        simp only [beq_iff_eq]
        rw [if_neg h]
        omega

theorem length_jsSplitSpace (s : String) :
    (jsSplitSpace s).length = s.toList.count ' ' + 1 := by
  rw [jsSplitSpace, List.length_map, length_splitOnChar]

theorem foldl_min_le : ∀ (t : List ℚ) (a : ℚ), ∀ p ∈ a :: t, List.foldl min a t ≤ p
  | [], a => by
    intro p hp
    rw [List.mem_singleton.mp hp]
    simp
  | b :: t, a => by
    intro p hp
    have key := foldl_min_le t (min a b)
    have hmab : List.foldl min (min a b) t ≤ min a b := key _ (List.mem_cons_self _ _)
    rcases List.mem_cons.mp hp with h | h
    · rw [h]
      exact le_trans hmab (min_le_left _ _)
    · rcases List.mem_cons.mp h with h2 | h2
      · rw [h2]
        exact le_trans hmab (min_le_right _ _)
      · exact key p (List.mem_cons_of_mem _ h2)

theorem le_foldl_max : ∀ (t : List ℚ) (a : ℚ), ∀ p ∈ a :: t, p ≤ List.foldl max a t
  | [], a => by
    intro p hp
    rw [List.mem_singleton.mp hp]
    simp
  | b :: t, a => by
    intro p hp
    have key := le_foldl_max t (max a b)
    have hmab : max a b ≤ List.foldl max (max a b) t := key _ (List.mem_cons_self _ _)
    rcases List.mem_cons.mp hp with h | h
    · rw [h]
      exact le_trans (le_max_left _ _) hmab
    · rcases List.mem_cons.mp h with h2 | h2
      · rw [h2]
        exact le_trans (le_max_right _ _) hmab
      · exact key p (List.mem_cons_of_mem _ h2)

theorem jsOr_some_zero (m : ℚ) : jsOr (some m) 0 = m := by
  by_cases h : m = 0 <;> simp [jsOr, h]

theorem distMinI_le {vals : List ℚ} {p : ℚ} (hp : p ∈ vals) :
    ((distMinI vals : ℤ) : ℚ) ≤ p := by
  cases vals with
  | nil => cases hp
  | cons a t =>
    have hle : List.foldl min a t ≤ p := foldl_min_le t a p hp
    rw [distMinI]
    rw [show listMin? (a :: t) = some (List.foldl min a t) from rfl, jsOr_some_zero]
    exact le_trans (Int.floor_le _) hle

theorem le_distMaxI {vals : List ℚ} {p : ℚ} (hp : p ∈ vals) :
    p ≤ ((distMaxI vals : ℤ) : ℚ) := by
  cases vals with
  | nil => cases hp
  | cons a t =>
    have hle : p ≤ List.foldl max a t := le_foldl_max t a p hp
    rw [distMaxI]
    rw [show listMax? (a :: t) = some (List.foldl max a t) from rfl]
    refine le_trans ?_ (Int.le_ceil _)
    by_cases h : List.foldl max a t = 0
    · rw [h] at hle
      simp [jsOr, h]
      linarith
    · simp [jsOr, h]
      exact hle

theorem bucketSizeOf_pos (vals : List ℚ) (h : distMinI vals < distMaxI vals) :
    0 < bucketSizeOf vals := by
  rw [bucketSizeOf]
  refine div_pos ?_ (by norm_num)
  exact_mod_cast sub_pos.mpr h

theorem sub_eq_ten_mul_bucketSize (vals : List ℚ) :
    ((distMaxI vals : ℤ) : ℚ) - ((distMinI vals : ℤ) : ℚ) = 10 * bucketSizeOf vals := by
  rw [bucketSizeOf]
  push_cast
  ring

theorem buildDistribution_eq (vals : List ℚ) (h : distMinI vals < distMaxI vals) :
    buildDistribution vals = (List.range 11).map (fun k : ℕ =>
      (((distMinI vals : ℤ) : ℚ) + (k : ℚ) * bucketSizeOf vals,
        (vals.filter (fun p =>
          decide (((distMinI vals : ℤ) : ℚ) + (k : ℚ) * bucketSizeOf vals ≤ p) &&
          decide (p < ((distMinI vals : ℤ) : ℚ) + (k : ℚ) * bucketSizeOf vals
            + bucketSizeOf vals))).length)) := by
  have hw : 0 < bucketSizeOf vals := bucketSizeOf_pos vals h
  have hw0 : bucketSizeOf vals ≠ 0 := ne_of_gt hw
  have hq : (((distMaxI vals : ℤ) : ℚ) + bucketSizeOf vals - ((distMinI vals : ℤ) : ℚ))
      / bucketSizeOf vals = 11 := by
    rw [show ((distMaxI vals : ℤ) : ℚ) + bucketSizeOf vals - ((distMinI vals : ℤ) : ℚ)
          = (((distMaxI vals : ℤ) : ℚ) - ((distMinI vals : ℤ) : ℚ)) + bucketSizeOf vals by ring,
        sub_eq_ten_mul_bucketSize vals]
    field_simp
    ring
  simp only [buildDistribution, lodashRange, if_neg hw0, hq]
  rw [show (⌈(11 : ℚ)⌉).toNat = 11 by decide]
  rw [List.map_map]
  rfl

theorem countP_sum_cons {α β : Type} (bs : List β) (pred : β → α → Bool) (a : α) (t : List α) :
    (bs.map (fun b => (List.filter (pred b) (a :: t)).length)).sum
      = bs.countP (fun b => pred b a)
        + (bs.map (fun b => (t.filter (pred b)).length)).sum := by
  induction bs with
  | nil => simp
  | cons b bs ih =>
    simp only [List.map_cons, List.sum_cons, List.countP_cons, ih]
    by_cases hb : pred b a
    · rw [List.filter_cons_of_pos hb]
      simp only [List.length_cons, if_pos hb]
      omega
    · rw [List.filter_cons_of_neg (by simpa using hb)]
      simp only [if_neg hb]
      omega

theorem sum_counts {α β : Type} (l : List α) (bs : List β) (pred : β → α → Bool)
    (h : ∀ p ∈ l, bs.countP (fun b => pred b p) = 1) :
    (bs.map (fun b => (l.filter (pred b)).length)).sum = l.length := by
  induction l with
  | nil => simp
  | cons a t ih =>
    rw [countP_sum_cons, h a (List.mem_cons_self _ _),
      ih (fun p hp => h p (List.mem_cons_of_mem _ hp)), List.length_cons]
    omega

theorem bucket_countP_eq_one (vals : List ℚ) (h : distMinI vals < distMaxI vals)
    (p : ℚ) (hp : p ∈ vals) :
    (List.range 11).countP (fun k : ℕ =>
      decide (((distMinI vals : ℤ) : ℚ) + (k : ℚ) * bucketSizeOf vals ≤ p) &&
      decide (p < ((distMinI vals : ℤ) : ℚ) + (k : ℚ) * bucketSizeOf vals
        + bucketSizeOf vals)) = 1 := by
  have hw : 0 < bucketSizeOf vals := bucketSizeOf_pos vals h
  have hlo : ((distMinI vals : ℤ) : ℚ) ≤ p := distMinI_le hp
  have hhi : p ≤ ((distMaxI vals : ℤ) : ℚ) := le_distMaxI hp
  have h10 := sub_eq_ten_mul_bucketSize vals
  have hq0 : 0 ≤ (p - ((distMinI vals : ℤ) : ℚ)) / bucketSizeOf vals :=
    div_nonneg (by linarith) (le_of_lt hw)
  have hq10 : (p - ((distMinI vals : ℤ) : ℚ)) / bucketSizeOf vals ≤ 10 := by
    rw [div_le_iff₀ hw]
    linarith
  have hk00 : 0 ≤ ⌊(p - ((distMinI vals : ℤ) : ℚ)) / bucketSizeOf vals⌋ :=
    Int.floor_nonneg.mpr hq0
  have hk010 : ⌊(p - ((distMinI vals : ℤ) : ℚ)) / bucketSizeOf vals⌋ ≤ 10 := by
    calc ⌊(p - ((distMinI vals : ℤ) : ℚ)) / bucketSizeOf vals⌋
        ≤ ⌊(10 : ℚ)⌋ := Int.floor_mono hq10
      _ = 10 := by decide
  have key : ∀ k : ℕ,
      (((distMinI vals : ℤ) : ℚ) + (k : ℚ) * bucketSizeOf vals ≤ p ∧
        p < ((distMinI vals : ℤ) : ℚ) + (k : ℚ) * bucketSizeOf vals + bucketSizeOf vals)
        ↔ (k : ℤ) = ⌊(p - ((distMinI vals : ℤ) : ℚ)) / bucketSizeOf vals⌋ := by
    intro k
    rw [eq_comm, Int.floor_eq_iff]
    constructor
    · rintro ⟨h1, h2⟩
      constructor
      · rw [le_div_iff₀ hw]
        push_cast
        linarith
      · rw [div_lt_iff₀ hw]
        push_cast
        linarith
    · rintro ⟨h1, h2⟩
      rw [le_div_iff₀ hw] at h1
      rw [div_lt_iff₀ hw] at h2
      push_cast at h1 h2
      exact ⟨by linarith, by linarith⟩
  rw [List.countP_congr (q := fun k =>
      k == (⌊(p - ((distMinI vals : ℤ) : ℚ)) / bucketSizeOf vals⌋).toNat) ?_]
  · rw [← List.count_eq_countP]
    refine List.count_eq_one_of_mem (List.nodup_range _) ?_
    rw [List.mem_range]
    omega
  · intro k hk
    simp only [Bool.and_eq_true, decide_eq_true_eq, beq_iff_eq]
    rw [key k]
    omega

theorem length_buildDistribution (vals : List ℚ) (h : distMinI vals < distMaxI vals) :
    (buildDistribution vals).length = 11 := by
  rw [buildDistribution_eq vals h, List.length_map, List.length_range]

theorem distMinI_eleven_halves : distMinI [(11/2 : ℚ)] = 5 := by
  show (⌊jsOr (listMin? [(11/2 : ℚ)]) 0⌋ : ℤ) = 5
  rw [show listMin? [(11/2 : ℚ)] = some (11/2) from rfl, jsOr_some_zero, Int.floor_eq_iff]
  norm_num

theorem distMaxI_eleven_halves : distMaxI [(11/2 : ℚ)] = 6 := by
  show (⌈jsOr (listMax? [(11/2 : ℚ)]) 30⌉ : ℤ) = 6
  rw [show listMax? [(11/2 : ℚ)] = some (11/2) from rfl,
    show jsOr (some (11/2 : ℚ)) 30 = 11/2 by norm_num [jsOr], Int.ceil_eq_iff]
  norm_num

theorem distMinI_thirteen_halves : distMinI [(13/2 : ℚ)] = 6 := by
  show (⌊jsOr (listMin? [(13/2 : ℚ)]) 0⌋ : ℤ) = 6
  rw [show listMin? [(13/2 : ℚ)] = some (13/2) from rfl, jsOr_some_zero, Int.floor_eq_iff]
  norm_num

theorem distMaxI_thirteen_halves : distMaxI [(13/2 : ℚ)] = 7 := by
  show (⌈jsOr (listMax? [(13/2 : ℚ)]) 30⌉ : ℤ) = 7
  rw [show listMax? [(13/2 : ℚ)] = some (13/2) from rfl,
    show jsOr (some (13/2 : ℚ)) 30 = 13/2 by norm_num [jsOr], Int.ceil_eq_iff]
  norm_num

theorem distMinI_seven : distMinI [(7 : ℚ)] = 7 := by
  show (⌊jsOr (listMin? [(7 : ℚ)]) 0⌋ : ℤ) = 7
  rw [show listMin? [(7 : ℚ)] = some 7 from rfl, jsOr_some_zero, Int.floor_eq_iff]
  norm_num

theorem distMaxI_seven : distMaxI [(7 : ℚ)] = 7 := by
  show (⌈jsOr (listMax? [(7 : ℚ)]) 30⌉ : ℤ) = 7
  rw [show listMax? [(7 : ℚ)] = some 7 from rfl,
    show jsOr (some (7 : ℚ)) 30 = 7 by norm_num [jsOr], Int.ceil_eq_iff]
  norm_num

theorem buildDistribution_seven : buildDistribution [(7 : ℚ)] = [] := by
  have hbs : bucketSizeOf [(7 : ℚ)] = 0 := by
    rw [bucketSizeOf, distMinI_seven, distMaxI_seven]
    norm_num
  show (lodashRange ((distMinI [(7 : ℚ)] : ℤ) : ℚ)
      (((distMaxI [(7 : ℚ)] : ℤ) : ℚ) + bucketSizeOf [(7 : ℚ)]) (bucketSizeOf [(7 : ℚ)])).map
      (fun bucket => (bucket,
        (List.filter (fun p => decide (bucket ≤ p) && decide (p < bucket + bucketSizeOf [(7 : ℚ)]))
          [(7 : ℚ)]).length)) = []
  rw [hbs, distMinI_seven, distMaxI_seven]
  simp only [lodashRange, if_pos rfl]
  norm_num

theorem mem_jsCountBy {l : List String} {x : String × ℕ} :
    x ∈ jsCountBy l ↔ ∃ s ∈ l, x = (s, l.count s) := by
  rw [jsCountBy]
  constructor
  · intro hx
    rcases List.mem_map.mp hx with ⟨s, hs, rfl⟩
    exact ⟨s, (mem_uniqFirst l).mp hs, rfl⟩
  · rintro ⟨s, hs, rfl⟩
    exact List.mem_map.mpr ⟨s, (mem_uniqFirst l).mpr hs, rfl⟩

theorem jsCountBy_toFinset_eq_iff (A B : List String) :
    (jsCountBy A).toFinset = (jsCountBy B).toFinset ↔ ∀ s, A.count s = B.count s := by
  constructor
  · intro h s
    by_cases hA : s ∈ A
    · have hmem : (s, A.count s) ∈ (jsCountBy A).toFinset :=
        List.mem_toFinset.mpr (mem_jsCountBy.mpr ⟨s, hA, rfl⟩)
      rw [h] at hmem
      rcases mem_jsCountBy.mp (List.mem_toFinset.mp hmem) with ⟨s2, hs2, heq⟩
      have h1 : s = s2 := congrArg Prod.fst heq
      have h2 : A.count s = B.count s2 := congrArg Prod.snd heq
      rw [h2, ← h1]
    · by_cases hB : s ∈ B
      · have hmem : (s, B.count s) ∈ (jsCountBy B).toFinset :=
          List.mem_toFinset.mpr (mem_jsCountBy.mpr ⟨s, hB, rfl⟩)
        rw [← h] at hmem
        rcases mem_jsCountBy.mp (List.mem_toFinset.mp hmem) with ⟨s2, hs2, heq⟩
        have h1 : s = s2 := congrArg Prod.fst heq
        rw [h1] at hA
        exact absurd hs2 hA
      · rw [List.count_eq_zero_of_not_mem hA, List.count_eq_zero_of_not_mem hB]
  · intro h
    ext x
    simp only [List.mem_toFinset]
    rw [mem_jsCountBy, mem_jsCountBy]
    constructor
    · rintro ⟨s, hs, rfl⟩
      refine ⟨s, ?_, ?_⟩
      · exact List.count_pos_iff.mp (h s ▸ List.count_pos_iff.mpr hs)
      · rw [h s]
    · rintro ⟨s, hs, rfl⟩
      refine ⟨s, ?_, ?_⟩
      · exact List.count_pos_iff.mp (by rw [h s]; exact List.count_pos_iff.mpr hs)
      · rw [h s]

theorem wordsMatch_iff_multiset (t1 t2 : String) :
    wordsMatch t1 t2 = true ↔
      (jsSplitSpace t1 : Multiset String) = (jsSplitSpace t2 : Multiset String) := by
  rw [wordsMatch, decide_eq_true_eq, jsCountBy_toFinset_eq_iff, Multiset.coe_eq_coe]
  exact (List.perm_iff_count).symm

theorem mapExcept_isOk {α β : Type} (f : α → Except Unit β) (l : List α) :
    (mapExcept f l).isOk = true ↔ ∀ a ∈ l, (f a).isOk = true := by
  induction l with
  | nil => simp [mapExcept, Except.isOk, Except.toBool]
  | cons a t ih =>
    cases hfa : f a with
    | error e =>
      rw [mapExcept, hfa]
      simp only [Except.isOk, Except.toBool]
      constructor
      · intro h
        exact absurd h (by simp)
      · intro h
        have ha := h a (List.mem_cons_self _ _)
        rw [hfa] at ha
        simp [Except.isOk, Except.toBool] at ha
    | ok b =>
      rw [mapExcept, hfa]
      cases hmt : mapExcept f t with
      | error e =>
        simp only [Except.isOk, Except.toBool]
        constructor
        · intro h
          exact absurd h (by simp)
        · intro h
          have ht := ih.mpr (fun x hx => h x (List.mem_cons_of_mem _ hx))
          rw [hmt] at ht
          simp [Except.isOk, Except.toBool] at ht
      | ok bs =>
        simp only [Except.isOk, Except.toBool]
        constructor
        · intro _ x hx
          rcases List.mem_cons.mp hx with h1 | h2
          · rw [h1, hfa]
          · have ht := ih.mp (by simp [hmt, Except.isOk, Except.toBool])
            exact ht x h2
        · intro _
          trivial

theorem idToString_isOk (i : JsId) :
    (idToString i).isOk = true ↔ i ≠ JsId.missing := by
  cases i <;> simp [idToString, Except.isOk, Except.toBool]

theorem foldlMinBy_spec : ∀ (t : List BestText) (a : BestText),
    (t.foldl (fun best x => if x.perplexity < best.perplexity then x else best) a ∈ a :: t) ∧
    (∀ x ∈ a :: t,
      (t.foldl (fun best x => if x.perplexity < best.perplexity then x else best) a).perplexity
        ≤ x.perplexity) ∧
    ∃ l1 l2, a :: t
        = l1 ++ (t.foldl (fun best x => if x.perplexity < best.perplexity then x else best) a) :: l2 ∧
      ∀ x ∈ l1,
        (t.foldl (fun best x => if x.perplexity < best.perplexity then x else best) a).perplexity
          < x.perplexity
  | [], a => by
    refine ⟨List.mem_cons_self _ _, ?_, [], [], rfl, by simp⟩
    intro x hx
    rw [List.mem_singleton.mp hx]
    exact le_refl _
  | b :: t, a => by
    by_cases hb : b.perplexity < a.perplexity
    · have hstep : (if b.perplexity < a.perplexity then b else a) = b := if_pos hb
      obtain ⟨hmem, hle, l1, l2, hdec, hgt⟩ := foldlMinBy_spec t b
      rw [show List.foldl (fun best x => if x.perplexity < best.perplexity then x else best) a (b :: t)
            = List.foldl (fun best x => if x.perplexity < best.perplexity then x else best) b t by
          rw [List.foldl_cons, hstep]]
      refine ⟨List.mem_cons_of_mem _ hmem, ?_, ?_⟩
      · intro x hx
        rcases List.mem_cons.mp hx with h1 | h2
        · rw [h1]
          exact le_trans (hle b (List.mem_cons_self _ _)) (le_of_lt hb)
        · exact hle x h2
      · refine ⟨a :: l1, l2, by rw [List.cons_append, ← hdec], ?_⟩
        intro x hx
        rcases List.mem_cons.mp hx with h1 | h2
        · rw [h1]
          exact lt_of_le_of_lt (hle b (List.mem_cons_self _ _)) hb
        · exact hgt x h2
    · have hstep : (if b.perplexity < a.perplexity then b else a) = a := if_neg hb
      obtain ⟨hmem, hle, l1, l2, hdec, hgt⟩ := foldlMinBy_spec t a
      rw [show List.foldl (fun best x => if x.perplexity < best.perplexity then x else best) a (b :: t)
            = List.foldl (fun best x => if x.perplexity < best.perplexity then x else best) a t by
          rw [List.foldl_cons, hstep]]
      have hab : a.perplexity ≤ b.perplexity := le_of_not_lt hb
      refine ⟨?_, ?_, ?_⟩
      · rcases List.mem_cons.mp hmem with h1 | h2
        · rw [h1]
          exact List.mem_cons_self _ _
        · exact List.mem_cons_of_mem _ (List.mem_cons_of_mem _ h2)
      · intro x hx
        rcases List.mem_cons.mp hx with h1 | h2
        · rw [h1]
          exact hle a (List.mem_cons_self _ _)
        · rcases List.mem_cons.mp h2 with h3 | h4
          · rw [h3]
            exact le_trans (hle a (List.mem_cons_self _ _)) hab
          · exact hle x (List.mem_cons_of_mem _ h4)
      · cases l1 with
        | nil =>
          have ha : a = List.foldl (fun best x => if x.perplexity < best.perplexity then x else best) a t := by
            have := hdec
            rw [List.nil_append] at this
            exact (List.cons.injEq _ _ _ _).mp this |>.1
          refine ⟨[], b :: t, ?_, by simp⟩
          rw [List.nil_append, ← ha]
        | cons c l1t =>
          have hc : c = a ∧ t = l1t
              ++ (List.foldl (fun best x => if x.perplexity < best.perplexity then x else best) a t)
                :: l2 := by
            rw [List.cons_append] at hdec
            exact ⟨((List.cons.injEq _ _ _ _).mp hdec).1.symm,
              ((List.cons.injEq _ _ _ _).mp hdec).2⟩
          have hlta : (List.foldl (fun best x => if x.perplexity < best.perplexity then x else best) a t).perplexity < a.perplexity := by
            have := hgt c (List.mem_cons_self _ _)
            rw [hc.1] at this
            exact this
          refine ⟨a :: b :: l1t, l2, ?_, ?_⟩
          · rw [List.cons_append, List.cons_append, ← hc.2]
          · intro x hx
            rcases List.mem_cons.mp hx with h1 | h2
            · rw [h1]
              exact hlta
            · rcases List.mem_cons.mp h2 with h3 | h4
              · rw [h3]
                exact lt_of_lt_of_le hlta hab
              · exact hgt x (List.mem_cons_of_mem _ h4)

theorem minByPerplexity_spec {l : List BestText} {m : BestText}
    (h : minByPerplexity l = some m) :
    m ∈ l ∧ (∀ x ∈ l, m.perplexity ≤ x.perplexity) ∧
    ∃ l1 l2, l = l1 ++ m :: l2 ∧ ∀ x ∈ l1, m.perplexity < x.perplexity := by
  cases l with
  | nil => simp [minByPerplexity] at h
  | cons a t =>
    rw [minByPerplexity, Option.some.injEq] at h
    rw [← h]
    exact foldlMinBy_spec t a

theorem bestTextsOf_mem (reports : List PerplexityScore) (id : JsId)
    (h : id ∈ (allScoresOf reports).map (fun s => s.id)) :
    ∃ b, b ∈ bestTextsOf reports ∧ b.id = id ∧
      b ∈ (allScoresOf reports).filter (fun s => decide (s.id = id)) ∧
      (∀ x ∈ (allScoresOf reports).filter (fun s => decide (s.id = id)),
        b.perplexity ≤ x.perplexity) ∧
      ∃ l1 l2, (allScoresOf reports).filter (fun s => decide (s.id = id)) = l1 ++ b :: l2 ∧
        ∀ x ∈ l1, b.perplexity < x.perplexity := by
  rcases List.mem_map.mp h with ⟨s0, hs0, hid0⟩
  have hfil : s0 ∈ (allScoresOf reports).filter (fun s => decide (s.id = id)) :=
    List.mem_filter.mpr ⟨hs0, by simp [hid0]⟩
  have hex : ∃ m, minByPerplexity
      ((allScoresOf reports).filter (fun s => decide (s.id = id))) = some m := by
    cases hf : (allScoresOf reports).filter (fun s => decide (s.id = id)) with
    | nil =>
      rw [hf] at hfil
      cases hfil
    | cons a t => exact ⟨_, rfl⟩
  obtain ⟨m, hm⟩ := hex
  obtain ⟨hmfil, hle, hdec⟩ := minByPerplexity_spec hm
  have hidmem : id ∈ uniqFirst ((allScoresOf reports).map (fun s => s.id)) :=
    (mem_uniqFirst _).mpr h
  have hmem : m ∈ bestTextsOf reports := by
    rw [bestTextsOf]
    exact List.mem_filterMap.mpr ⟨id, hidmem, hm⟩
  have hid' : m.id = id := by
    have h2 := (List.mem_filter.mp hmfil).2
    simpa using h2
  exact ⟨m, hmem, hid', hmfil, hle, hdec⟩

theorem flatten_reverse_perm {α : Type} : ∀ L : List (List α), L.reverse.flatten.Perm L.flatten
  | [] => by simp
  | a :: t => by
    have h1 : (t.reverse ++ [a]).flatten = t.reverse.flatten ++ a := by
      rw [List.flatten_append]
      simp
    rw [List.reverse_cons, h1, List.flatten_cons]
    exact (List.perm_append_comm).trans (List.Perm.append_left a (flatten_reverse_perm t))

theorem allScoresOf_reverse_perm (reports : List PerplexityScore) :
    (allScoresOf reports.reverse).Perm (allScoresOf reports) := by
  rw [allScoresOf, allScoresOf, List.map_reverse]
  exact flatten_reverse_perm _

theorem mapExcept_idToString_eq {rows : List Row}
    (h : ∀ r ∈ rows, r.id ≠ JsId.missing) :
    mapExcept (fun r => idToString r.id) rows
      = Except.ok (rows.map (fun r => idStr r.id)) := by
  induction rows with
  | nil => rfl
  | cons r t ih =>
    have hr : idToString r.id = Except.ok (idStr r.id) := by
      cases hid : r.id with
      | str s => rfl
      | num n => rfl
      | missing => exact absurd hid (h r (List.mem_cons_self _ _))
    rw [mapExcept, hr, ih (fun x hx => h x (List.mem_cons_of_mem _ hx))]
    rfl

theorem mapExcept_files_eq {files : List FileData}
    (h : ∀ f ∈ files, ∀ r ∈ f.data, r.id ≠ JsId.missing) :
    mapExcept (fun file => mapExcept (fun row => idToString row.id) file.data) files
      = Except.ok (files.map strIdsOf) := by
  induction files with
  | nil => rfl
  | cons f t ih =>
    rw [mapExcept, mapExcept_idToString_eq (h f (List.mem_cons_self _ _)),
      ih (fun x hx => h x (List.mem_cons_of_mem _ hx))]
    rfl

theorem analyzeFiles_idCount_proj {files : List FileData} (score : ℕ → ℕ → ℚ)
    (h : ∀ f ∈ files, ∀ r ∈ f.data, r.id ≠ JsId.missing) :
    Except.map (fun res => res.commonIds) (analyzeFiles files score)
      = Except.ok ((lodashIntersection (files.map strIdsOf)).length) ∧
    Except.map (fun res => res.totalUniqueIds) (analyzeFiles files score)
      = Except.ok ((lodashUnion (files.map strIdsOf)).length) := by
  have hm := mapExcept_files_eq h
  constructor <;> simp only [analyzeFiles, hm, Except.map]

theorem mem_foldl_inter {v : String} (rest : List FileData) (s0 : Finset String) :
    v ∈ rest.foldl (fun acc f => acc ∩ (strIdsOf f).toFinset) s0 ↔
      v ∈ s0 ∧ ∀ f ∈ rest, v ∈ strIdsOf f := by
  induction rest generalizing s0 with
  | nil => simp
  | cons f t ih =>
    rw [List.foldl_cons, ih, Finset.mem_inter, List.mem_toFinset]
    simp only [List.mem_cons]
    constructor
    · rintro ⟨⟨h1, h2⟩, h3⟩
      refine ⟨h1, fun x hx => ?_⟩
      rcases hx with rfl | hx2
      · exact h2
      · exact h3 x hx2
    · rintro ⟨h1, h2⟩
      exact ⟨⟨h1, h2 f (Or.inl rfl)⟩, fun x hx => h2 x (Or.inr hx)⟩

theorem mem_foldl_union {v : String} (files : List FileData) (s0 : Finset String) :
    v ∈ files.foldl (fun acc f => acc ∪ (strIdsOf f).toFinset) s0 ↔
      v ∈ s0 ∨ ∃ f ∈ files, v ∈ strIdsOf f := by
  induction files generalizing s0 with
  | nil => simp
  | cons f t ih =>
    rw [List.foldl_cons, ih, Finset.mem_union, List.mem_toFinset]
    simp only [List.mem_cons]
    constructor
    · rintro ((h1 | h2) | ⟨x, hx, hvx⟩)
      · exact Or.inl h1
      · exact Or.inr ⟨f, Or.inl rfl, h2⟩
      · exact Or.inr ⟨x, Or.inr hx, hvx⟩
    · rintro (h1 | ⟨x, hx, hvx⟩)
      · exact Or.inl (Or.inl h1)
      · rcases hx with rfl | hx2
        · exact Or.inl (Or.inr hvx)
        · exact Or.inr ⟨x, hx2, hvx⟩

theorem commonIds_card (f0 : FileData) (rest : List FileData) :
    (lodashIntersection ((f0 :: rest).map strIdsOf)).length
      = (rest.foldl (fun s f => s ∩ (strIdsOf f).toFinset) (strIdsOf f0).toFinset).card := by
  rw [show (f0 :: rest).map strIdsOf = strIdsOf f0 :: rest.map strIdsOf from rfl]
  rw [show lodashIntersection (strIdsOf f0 :: rest.map strIdsOf)
      = uniqFirst ((strIdsOf f0).filter
          (fun v => (rest.map strIdsOf).all (fun arr => decide (v ∈ arr)))) from rfl]
  rw [length_uniqFirst]
  congr 1
  ext v
  rw [List.mem_toFinset, List.mem_filter, mem_foldl_inter, List.mem_toFinset]
  constructor
  · rintro ⟨h1, h2⟩
    refine ⟨h1, fun f hf => ?_⟩
    have hall := List.all_eq_true.mp h2 (strIdsOf f) (List.mem_map.mpr ⟨f, hf, rfl⟩)
    simpa using hall
  · rintro ⟨h1, h2⟩
    refine ⟨h1, List.all_eq_true.mpr ?_⟩
    intro arr harr
    rcases List.mem_map.mp harr with ⟨f, hf, rfl⟩
    simpa using h2 f hf

theorem unionIds_card (files : List FileData) :
    (lodashUnion (files.map strIdsOf)).length
      = (files.foldl (fun s f => s ∪ (strIdsOf f).toFinset) (∅ : Finset String)).card := by
  rw [lodashUnion, length_uniqFirst]
  congr 1
  ext v
  rw [List.mem_toFinset, List.mem_flatten, mem_foldl_union]
  constructor
  · rintro ⟨arr, harr, hv⟩
    rcases List.mem_map.mp harr with ⟨f, hf, rfl⟩
    exact Or.inr ⟨f, hf, hv⟩
  · rintro (h0 | ⟨f, hf, hv⟩)
    · exact absurd h0 (Finset.not_mem_empty v)
    · exact ⟨strIdsOf f, List.mem_map.mpr ⟨f, hf, rfl⟩, hv⟩

/-! ## Claims -/

/-- C1: for every dataset, `rowCount` equals the number of records; but on a
dataset with zero records the code leaves `avgWordCount` as `NaN`
(`parseFloat(_.mean([]).toFixed(2))`, modelled as `none`) instead of the
specified `0`, while `minWordCount` and `maxWordCount` are indeed `0`. -/
theorem c1_fileStats :
    (∀ file : FileData, (fileStatsOf file).rowCount = file.data.length) ∧
    (fileStatsOf { name := "empty", data := [] }).avgWordCount = none ∧
    (fileStatsOf { name := "empty", data := [] }).minWordCount = 0 ∧
    (fileStatsOf { name := "empty", data := [] }).maxWordCount = 0 :=
  ⟨fun _ => rfl, rfl, rfl, rfl⟩

/-- C4 counterexample: on a successful (2xx) response whose JSON body lacks
the `perplexity` field, `calculatePerplexity` with the remote strategy does
not invoke the error hook and does not fall back to the local heuristic: it
returns the missing field (`undefined`, modelled as `none`). -/
theorem c4_counterexample :
    (calculatePerplexity "x" true (RemoteOutcome.response true (RemoteBody.json none)) 0).hookCalled
      = false ∧
    (calculatePerplexity "x" true (RemoteOutcome.response true (RemoteBody.json none)) 0).value
      = none :=
  ⟨rfl, rfl⟩

/-- C4 (amended): for the failure outcomes the `catch` block actually
intercepts (network error, non-2xx response, unparseable body), the remote
strategy invokes the error hook and returns the local heuristic's score for
that call; but a 2xx response whose body merely lacks the `perplexity`
field is returned as `undefined` with no hook and no fallback. -/
theorem c4_remoteFallback (text : String) (u : ℚ) :
    (∀ outcome, handledRemoteFailure outcome = true →
      calculatePerplexity text true outcome u
        = { value := some (localScore text u), hookCalled := true }) ∧
    calculatePerplexity text true (RemoteOutcome.response true (RemoteBody.json none)) u
      = { value := none, hookCalled := false } := by
  constructor
  · intro outcome h
    cases outcome with
    | fetchError => rfl
    | response ok body =>
      cases ok with
      | false => rfl
      | true =>
        cases body with
        | notJson => rfl
        | json p => simp [handledRemoteFailure] at h
  · rfl

/-- C4 witness: the fallback equation at a concrete failing call. -/
theorem c4_witness :
    handledRemoteFailure RemoteOutcome.fetchError = true ∧
    calculatePerplexity "x" true RemoteOutcome.fetchError 0
      = { value := some (localScore "x" 0), hookCalled := true } :=
  ⟨rfl, (c4_remoteFallback "x" 0).1 RemoteOutcome.fetchError rfl⟩

/-- C5 counterexample: the statistics word count is not the whitespace-token
count: on `"a  b"` (two spaces) the code counts 3 split pieces while there
are 2 whitespace-separated tokens. -/
theorem c5_counterexample :
    wordCountOfRow { id := JsId.num 1, text := some "a  b" } = 3 ∧
    (specWhitespaceTokens "a  b").length = 2 ∧
    wordCountOfRow { id := JsId.num 1, text := some "a  b" }
      ≠ (specWhitespaceTokens "a  b").length := by
  refine ⟨by decide, by decide, by decide⟩

/-- C5 (amended): the word count used by the statistics block is the number
of pieces of a split on single space characters: `0` for a missing or empty
text, and otherwise one more than the number of `' '` characters, so
consecutive spaces each contribute an (empty) token and tabs or newlines do
not separate. -/
theorem c5_wordCount (id : JsId) (t : String) :
    wordCountOfRow { id := id, text := none } = 0 ∧
    wordCountOfRow { id := id, text := some t }
      = if t = "" then 0 else t.toList.count ' ' + 1 := by
  constructor
  · rfl
  · by_cases h : t = ""
    · simp [wordCountOfRow, h]
    · simp [wordCountOfRow, h, length_jsSplitSpace]

/-- C2 counterexample: on the non-empty score list `[11/2]` the histogram
has 11 bucket entries, not the claimed 10. -/
theorem c2_counterexample : (buildDistribution [(11/2 : ℚ)]).length ≠ 10 := by
  have h : distMinI [(11/2 : ℚ)] < distMaxI [(11/2 : ℚ)] := by
    rw [distMinI_eleven_halves, distMaxI_eleven_halves]
    norm_num
  rw [length_buildDistribution _ h]
  norm_num

/-- C2 (amended): whenever `floor(min) < ceil(max)` (in particular for any
non-empty score list with these rounded bounds distinct), the histogram
consists of exactly 11 equal-width bucket entries whose start boundaries
are `floor(min) + k·bucketWidth` for `k = 0..10` — thus spanning
`[floor(min), ceil(max)]` — with
`bucketWidth = (ceil(max) − floor(min)) / 10`; for an empty score list the
range defaults to `[0, 30]`.  (When `ceil(max) = floor(min)` the bucket
list is empty instead.) -/
theorem c2_histogramShape (vals : List ℚ) (h : distMinI vals < distMaxI vals) :
    (buildDistribution vals).length = 11 ∧
    (buildDistribution vals).map Prod.fst = (List.range 11).map
      (fun k : ℕ => ((distMinI vals : ℤ) : ℚ) + (k : ℚ) * bucketSizeOf vals) ∧
    bucketSizeOf vals = ((distMaxI vals - distMinI vals : ℤ) : ℚ) / 10 ∧
    distMinI [] = 0 ∧ distMaxI [] = 30 := by
  refine ⟨length_buildDistribution vals h, ?_, rfl, ?_, ?_⟩
  · rw [buildDistribution_eq vals h, List.map_map]
    rfl
  · show (⌊jsOr (listMin? []) 0⌋ : ℤ) = 0
    rw [show jsOr (listMin? []) 0 = 0 from rfl]
    simp
  · show (⌈jsOr (listMax? []) 30⌉ : ℤ) = 30
    rw [show jsOr (listMax? []) 30 = 30 from rfl, Int.ceil_eq_iff]
    norm_num

/-- C2 witness: the amended histogram shape at the concrete score list
`[11/2]`. -/
theorem c2_witness :
    distMinI [(11/2 : ℚ)] < distMaxI [(11/2 : ℚ)] ∧
    (buildDistribution [(11/2 : ℚ)]).length = 11 := by
  have h : distMinI [(11/2 : ℚ)] < distMaxI [(11/2 : ℚ)] := by
    rw [distMinI_eleven_halves, distMaxI_eleven_halves]
    norm_num
  exact ⟨h, (c2_histogramShape [(11/2 : ℚ)] h).1⟩

/-- C3 counterexample: on the non-empty score list `[7]` we get
`floor(min) = ceil(max) = 7`, the bucket list is empty, and the sum of the
bucket counts is `0`, not the claimed number of scores `1`: the single
score (which is also the maximum) is dropped. -/
theorem c3_counterexample :
    ((buildDistribution [(7 : ℚ)]).map Prod.snd).sum ≠ [(7 : ℚ)].length := by
  rw [buildDistribution_seven]
  simp

/-- C3 (amended): whenever `floor(min) < ceil(max)`, the sum of all bucket
counts equals the number of input scores, and every input score — in
particular one equal to the maximum — lies in exactly one bucket; but when
`ceil(max) = floor(min)` (all scores equal to one integer) the bucket list
is empty and every score is dropped. -/
theorem c3_histogramCounts (vals : List ℚ) (h : distMinI vals < distMaxI vals) :
    ((buildDistribution vals).map Prod.snd).sum = vals.length ∧
    ∀ p ∈ vals, (buildDistribution vals).countP
        (fun bc => decide (bc.1 ≤ p) && decide (p < bc.1 + bucketSizeOf vals)) = 1 := by
  constructor
  · rw [buildDistribution_eq vals h, List.map_map]
    exact sum_counts vals (List.range 11) _ (fun p hp => bucket_countP_eq_one vals h p hp)
  · intro p hp
    rw [buildDistribution_eq vals h, List.countP_map]
    exact bucket_countP_eq_one vals h p hp

/-- C3 witness: the amended count-preservation at the concrete score list
`[13/2]`. -/
theorem c3_witness :
    distMinI [(13/2 : ℚ)] < distMaxI [(13/2 : ℚ)] ∧
    ((buildDistribution [(13/2 : ℚ)]).map Prod.snd).sum = 1 := by
  have h : distMinI [(13/2 : ℚ)] < distMaxI [(13/2 : ℚ)] := by
    rw [distMinI_thirteen_halves, distMaxI_thirteen_halves]
    norm_num
  refine ⟨h, ?_⟩
  have hs := (c3_histogramCounts [(13/2 : ℚ)] h).1
  simpa using hs

/-- C7 counterexample: the comparator's `wordsMatch` is not whitespace
tokenization: `"a  b"` (two spaces) and `"a b"` have identical
whitespace-split token lists `["a", "b"]`, yet the flag is `false` because
the single-space split of the first text contains an extra empty token. -/
theorem c7_counterexample :
    specWhitespaceTokens "a  b" = ["a", "b"] ∧
    specWhitespaceTokens "a b" = ["a", "b"] ∧
    wordsMatch "a  b" "a b" = false := by
  refine ⟨by decide, by decide, by decide⟩

/-- C7 (amended): `wordsMatch` equals equality of the word-frequency
multisets of the two texts split on single space characters (empty tokens
from consecutive spaces included); it is symmetric, order-insensitive and
duplicate-count-sensitive, equal texts always give `textsDifferent = false`
and `wordsMatch = true`, and the spec's concrete examples hold. -/
theorem c7_wordsMatch (t1 t2 : String) :
    (wordsMatch t1 t2 = true ↔
      (jsSplitSpace t1 : Multiset String) = (jsSplitSpace t2 : Multiset String)) ∧
    wordsMatch t1 t2 = wordsMatch t2 t1 ∧
    textsDifferent t1 t1 = false ∧
    wordsMatch t1 t1 = true ∧
    wordsMatch "a b a" "a a b" = true ∧
    wordsMatch "a b" "a b b" = false := by
  refine ⟨wordsMatch_iff_multiset t1 t2, ?_, ?_, ?_, by decide, by decide⟩
  · rw [wordsMatch, wordsMatch]
    exact decide_eq_decide.mpr eq_comm
  · simp [textsDifferent]
  · simp [wordsMatch]

/-- C10: `analyzeFiles` returns a result exactly when every record of every
selected dataset has a present (non-missing) id; if any record's id is
`null`/`undefined`, the `row.id.toString()` call in the common-id block
throws and no `AnalysisResult` is produced, even though the statistics,
comparison and scoring stages (all total functions in this development)
tolerate the missing id. -/
theorem c10_missingId (selectedFiles : List FileData) (score : ℕ → ℕ → ℚ) :
    (analyzeFiles selectedFiles score).isOk = true ↔
      ∀ file ∈ selectedFiles, ∀ row ∈ file.data, row.id ≠ JsId.missing := by
  have hred : (analyzeFiles selectedFiles score).isOk
      = (mapExcept (fun file => mapExcept (fun row => idToString row.id) file.data)
          selectedFiles).isOk := by
    cases hm : mapExcept (fun file => mapExcept (fun row => idToString row.id) file.data)
        selectedFiles with
    | error e => simp [analyzeFiles, hm, Except.isOk, Except.toBool]
    | ok allIds => simp [analyzeFiles, hm, Except.isOk, Except.toBool]
  rw [hred, mapExcept_isOk]
  refine forall_congr' (fun file => forall_congr' (fun hf => ?_))
  rw [mapExcept_isOk]
  exact forall_congr' (fun row => forall_congr' (fun hr => idToString_isOk row.id))

/-- C6: for every report list and every id occurring in it, the
`bestTexts` entry for that id has perplexity less than or equal to every
score recorded for the id across all reports; the selected score value is
unchanged when the reports are given in reversed order; and the selected
entry is the first minimum in the flattened dataset-then-record order
(every strictly earlier entry for the id has strictly greater score). -/
theorem c6_bestTexts (reports : List PerplexityScore) (id : JsId)
    (h : id ∈ (allScoresOf reports).map (fun s => s.id)) :
    ∃ b, b ∈ bestTextsOf reports ∧ b.id = id ∧
      (∀ s ∈ allScoresOf reports, s.id = id → b.perplexity ≤ s.perplexity) ∧
      (∃ b2, b2 ∈ bestTextsOf reports.reverse ∧ b2.id = id ∧
        b2.perplexity = b.perplexity) ∧
      ∃ l1 l2, (allScoresOf reports).filter (fun s => decide (s.id = id)) = l1 ++ b :: l2 ∧
        ∀ x ∈ l1, b.perplexity < x.perplexity := by
  obtain ⟨b, hmem, hid, hbfil, hble, hdec⟩ := bestTextsOf_mem reports id h
  have hperm := allScoresOf_reverse_perm reports
  have h2 : id ∈ (allScoresOf reports.reverse).map (fun s => s.id) := by
    rcases List.mem_map.mp h with ⟨s0, hs0, hid0⟩
    exact List.mem_map.mpr ⟨s0, hperm.mem_iff.mpr hs0, hid0⟩
  obtain ⟨b2, hmem2, hid2, hbfil2, hble2, hdec2⟩ := bestTextsOf_mem reports.reverse id h2
  refine ⟨b, hmem, hid, ?_, ⟨b2, hmem2, hid2, ?_⟩, hdec⟩
  · intro s hs hsid
    exact hble s (List.mem_filter.mpr ⟨hs, by simp [hsid]⟩)
  · have hpermf : ((allScoresOf reports.reverse).filter (fun s => decide (s.id = id))).Perm
        ((allScoresOf reports).filter (fun s => decide (s.id = id))) := hperm.filter _
    have le1 : b.perplexity ≤ b2.perplexity := hble b2 (hpermf.mem_iff.mp hbfil2)
    have le2 : b2.perplexity ≤ b.perplexity := hble2 b (hpermf.mem_iff.mpr hbfil)
    exact le_antisymm le2 le1

/-- C6 witness: the selector's properties at two concrete one-record
reports sharing id 1 with scores 10 and 7. -/
theorem c6_witness :
    (JsId.num 1 ∈ (allScoresOf c6Reports).map (fun s => s.id)) ∧
    ∃ b, b ∈ bestTextsOf c6Reports ∧ b.id = JsId.num 1 ∧
      (∀ s ∈ allScoresOf c6Reports, s.id = JsId.num 1 → b.perplexity ≤ s.perplexity) ∧
      (∃ b2, b2 ∈ bestTextsOf c6Reports.reverse ∧ b2.id = JsId.num 1 ∧
        b2.perplexity = b.perplexity) ∧
      ∃ l1 l2, (allScoresOf c6Reports).filter (fun s => decide (s.id = JsId.num 1))
          = l1 ++ b :: l2 ∧ ∀ x ∈ l1, b.perplexity < x.perplexity :=
  ⟨by decide, c6_bestTexts c6Reports (JsId.num 1) (by decide)⟩

/-- C8 counterexample: ids are stringified (`row.id.toString()`) before the
intersection, so the numeric id `1` and the string id `"1"` — distinct
values as found in the input records, with empty raw intersection — are
identified, and `commonIds` is 1 where the claim's raw-id-set intersection
has size 0. -/
theorem c8_counterexample :
    Except.map (fun res => res.commonIds) (analyzeFiles [c8FileA, c8FileB] (fun _ _ => 0))
      = Except.ok 1 ∧
    (c8FileA.data.map (fun r => r.id)).inter (c8FileB.data.map (fun r => r.id)) = [] :=
  ⟨rfl, rfl⟩

/-- C8 (amended): for every non-empty selection of datasets with all ids
present, `commonIds` equals the cardinality of the intersection of the
datasets' sets of stringified ids taken across all selected datasets (not
just the first two), and `totalUniqueIds` equals the cardinality of their
union; number ids and string ids that stringify identically are
identified. -/
theorem c8_idCounts (f0 : FileData) (rest : List FileData) (score : ℕ → ℕ → ℚ)
    (h : ∀ f ∈ f0 :: rest, ∀ r ∈ f.data, r.id ≠ JsId.missing) :
    Except.map (fun res => res.commonIds) (analyzeFiles (f0 :: rest) score)
      = Except.ok ((rest.foldl (fun s f => s ∩ (strIdsOf f).toFinset)
          (strIdsOf f0).toFinset).card) ∧
    Except.map (fun res => res.totalUniqueIds) (analyzeFiles (f0 :: rest) score)
      = Except.ok (((f0 :: rest).foldl (fun s f => s ∪ (strIdsOf f).toFinset)
          (∅ : Finset String)).card) := by
  obtain ⟨hc, hu⟩ := analyzeFiles_idCount_proj score h
  constructor
  · rw [hc, commonIds_card]
  · rw [hu, unionIds_card]

/-- C8 witness: the amended id counts at the two concrete one-record
datasets with ids `1` (number) and `"1"` (string). -/
theorem c8_witness :
    (∀ f ∈ [c8FileA, c8FileB], ∀ r ∈ f.data, r.id ≠ JsId.missing) ∧
    (Except.map (fun res => res.commonIds) (analyzeFiles [c8FileA, c8FileB] (fun _ _ => 0))
      = Except.ok (([c8FileB].foldl (fun s f => s ∩ (strIdsOf f).toFinset)
          (strIdsOf c8FileA).toFinset).card) ∧
    Except.map (fun res => res.totalUniqueIds) (analyzeFiles [c8FileA, c8FileB] (fun _ _ => 0))
      = Except.ok (([c8FileA, c8FileB].foldl (fun s f => s ∪ (strIdsOf f).toFinset)
          (∅ : Finset String)).card)) :=
  ⟨by decide, c8_idCounts c8FileA [c8FileB] (fun _ _ => 0) (by decide)⟩

/-- C9 counterexample: on a text whose tokens are all distinct (here
`"a b"`), the local heuristic returns exactly `5` for every random draw, so
repeated calls on this input cannot differ: the claimed per-text
nondeterminism fails. -/
theorem c9_counterexample :
    ¬ ∃ u1 u2 : ℚ, (0 ≤ u1 ∧ u1 < 1) ∧ (0 ≤ u2 ∧ u2 < 1) ∧
      localScore "a b" u1 ≠ localScore "a b" u2 := by
  rintro ⟨u1, u2, -, -, hne⟩
  apply hne
  have h1 : (jsSplitSpace "a b").length = 2 := by decide
  have h2 : (uniqFirst (jsSplitSpace (jsToLower "a b"))).length = 2 := by decide
  simp only [localScore, h1, h2]
  norm_num

/-- C9 (amended): the local strategy is nondeterministic exactly on texts
with a repeated lower-cased token: whenever the distinct-token count is
below the token count, there are draws in `[0,1)` under which two runs
return different scores (texts with all-distinct tokens always return
exactly 5). -/
theorem c9_localNondeterminism (text : String)
    (h : (uniqFirst (jsSplitSpace (jsToLower text))).length < (jsSplitSpace text).length) :
    ∃ u1 u2 : ℚ, (0 ≤ u1 ∧ u1 < 1) ∧ (0 ≤ u2 ∧ u2 < 1) ∧
      localScore text u1 ≠ localScore text u2 := by
  refine ⟨0, 1/2, ⟨le_refl 0, by norm_num⟩, ⟨by norm_num, by norm_num⟩, ?_⟩
  have hwcpos : 0 < (jsSplitSpace text).length :=
    lt_of_le_of_lt (Nat.zero_le _) h
  have he : (((uniqFirst (jsSplitSpace (jsToLower text))).length : ℚ)
      / ((jsSplitSpace text).length : ℚ)) < 1 := by
    rw [div_lt_one (by exact_mod_cast hwcpos)]
    exact_mod_cast h
  have e1 : localScore text 0 = 5 := by simp [localScore]
  have e2 : localScore text (1/2)
      = 5 + 25 * (1 - ((uniqFirst (jsSplitSpace (jsToLower text))).length : ℚ)
          / ((jsSplitSpace text).length : ℚ)) * (1/2) := rfl
  rw [e1, e2]
  intro heq
  nlinarith [he]

/-- C9 witness: the amended nondeterminism at the concrete text `"a a"`. -/
theorem c9_witness :
    (uniqFirst (jsSplitSpace (jsToLower "a a"))).length < (jsSplitSpace "a a").length ∧
    ∃ u1 u2 : ℚ, (0 ≤ u1 ∧ u1 < 1) ∧ (0 ≤ u2 ∧ u2 < 1) ∧
      localScore "a a" u1 ≠ localScore "a a" u2 :=
  ⟨by decide, c9_localNondeterminism "a a" (by decide)⟩

end PerplexityAnalyzer
